import Mathlib

/-!
Verification development for the OAI-PMH-extractor repository.

The Python sources under src/oai_pmh_extractor are shallowly embedded:
pure computations become Lean functions, objects with mutable state become
explicit state passing, the ambient clock (datetime.utcnow) becomes an
explicit argument, and external effects (HTTP transport, XML parsing,
the regex engine, the filesystem) become oracles passed as arguments,
modelling exactly the data the source reads from them.  The dcm_common
Logger is modelled as a list of (level, body) entries; stderr prints have
no observable state and are dropped.
-/

set_option maxRecDepth 100000

namespace OAIPMHX

/-- Log levels of the dcm_common Logger (INFO/WARNING/ERROR). -/
inductive LogLevel where
  | info
  | warning
  | error
deriving DecidableEq, Repr

/-- One log entry: level and body text (origin tags are fixed per component
and therefore omitted). -/
structure LogEntry where
  level : LogLevel
  body : String
deriving DecidableEq, Repr

/-- A Logger is modelled as the list of entries logged so far; a freshly
constructed Logger is the empty list. -/
abbrev Log := List LogEntry

/-- Python exceptions raised by the embedded code. -/
inductive PyErr where
  /-- OverflowError of list_identifiers_exhaustive (token limit). -/
  | overflow
  /-- ValueError (missing _metadata_prefix in list_identifiers). -/
  | valueError (msg : String)
  /-- TypeError (missing path in download_record_payload). -/
  | typeError (msg : String)
  /-- requests.RequestException / urllib transport errors. -/
  | transport (msg : String)
  /-- SyntaxError propagated out of a transfer-url filter. -/
  | synErr (msg : String)
  /-- FileExistsError of download_file's filename-collision loop. -/
  | fileExists (msg : String)
deriving DecidableEq, Repr

/-- File dictionary from src/oai_pmh_extractor/oaipmh_record.py (class File):
fields identifier, url, path, complete. -/
structure File where
  identifier : String
  url : String
  path : Option String := none
  complete : Bool := false
deriving DecidableEq, Repr

/-- OAIPMHRecord from src/oai_pmh_extractor/oaipmh_record.py.  The field
metadata_prefix is rendered as metadata_pfx; identifier_hash (an MD5 of the
identifier) is not needed by any claim and is omitted. -/
structure OAIPMHRecord where
  identifier : String
  status : String := ""
  metadata_pfx : Option String := none
  metadata_raw : Option String := none
  files : List File := []
  complete : Bool := false
  path : Option String := none
deriving DecidableEq, Repr

/-- File template appended by register_files_by_url (oaipmh_record.py,
lines 68-76): identifier and url both set to the url. -/
def fileTemplate (url : String) : File :=
  { identifier := url, url := url, path := none, complete := false }

/-- OAIPMHRecord.register_files_by_url (oaipmh_record.py, lines 61-76):
append a template File for each url. -/
def OAIPMHRecord.register_files_by_url (r : OAIPMHRecord)
    (file_urls : List String) : OAIPMHRecord :=
  { r with files := r.files ++ file_urls.map fileTemplate }

/-- Job from src/oai_pmh_extractor/job.py: record-class for one harvest job.
The datetime strings from datetime.utcnow().strftime(...) appear as the
explicit argument now wherever the source reads the clock. -/
structure Job where
  identifier : String
  complete : Bool := false
  records : List OAIPMHRecord := []
  description : String := ""
  running : Bool := false
  paused : Bool := false
  creation_datetime : String
  start_datetime : String := "not started"
  complete_datetime : String := "not completed"
  omitted_records : List OAIPMHRecord := []
  log : Log := []
deriving DecidableEq, Repr

/-- Job.__init__ (job.py, lines 49-70). -/
def Job.init (identifier : String) (description : String) (now : String) : Job :=
  { identifier := identifier
    description := description
    creation_datetime := now
    log := [⟨.info, "Job " ++ identifier ++ " created."⟩] }

/-- Job.end (job.py, lines 86-96): sets complete_datetime, clears running,
sets complete to (not abort); note the paused flag is left untouched.
Named end' because end is a Lean keyword. -/
def Job.end' (j : Job) (now : String) (abort : Bool := false) : Job :=
  { j with
    complete_datetime := now
    running := false
    complete := !abort
    log := j.log ++ [⟨.info, "Job ended. " ++
      (if abort then "(Reason: Abort)" else "(Reason: Done)")⟩] }

/-- Job.add_record (job.py, lines 103-129): reject when a record with the
same identifier is already in records, else append; returns the updated job
and the boolean result. -/
def Job.add_record (j : Job) (record : OAIPMHRecord) : Job × Bool :=
  if j.records.any (fun r => r.identifier = record.identifier) then
    ({ j with log := j.log ++
        [⟨.error, "Tried to add existing record (" ++ record.identifier ++ ")."⟩] },
      false)
  else
    ({ j with
        log := j.log ++ [⟨.info, "Add record " ++ record.identifier ++ "."⟩]
        records := j.records ++ [record] },
      true)

/-- Job.start (job.py, lines 146-163). -/
def Job.start (j : Job) (now : String) : Job :=
  if !j.running && !j.paused then
    { j with
      start_datetime := now
      running := true
      complete := false
      log := j.log ++ [⟨.info, "Start Job."⟩] }
  else
    { j with log := j.log ++
        [⟨.error, "Attempt at starting Job while already in running state."⟩] }

/-- Job.pause (job.py, lines 165-182). -/
def Job.pause (j : Job) : Job :=
  if j.running then
    { j with
      paused := true
      running := false
      complete := false
      log := j.log ++ [⟨.info, "Paused Job."⟩] }
  else
    { j with log := j.log ++
        [⟨.error, "Attempt at pausing Job which has not been started."⟩] }

/-- Job.resume (job.py, lines 184-201). -/
def Job.resume (j : Job) : Job :=
  if j.paused then
    { j with
      paused := false
      running := true
      complete := false
      log := j.log ++ [⟨.info, "Resumed Job."⟩] }
  else
    { j with log := j.log ++
        [⟨.error, "Attempt at resuming Job which has not been paused."⟩] }

/-- Log body of add_omitted_record and omit_record (job.py, lines 251-255 and
286-290): due to Python operator precedence the conditional expression
swallows the whole concatenation, so the body is empty when no reason is
given. -/
def omitLogBody (identifier : String) (reason : Option String) : String :=
  match reason with
  | some r => "Omit record " ++ identifier ++ "." ++ " (Reason: " ++ r ++ ")"
  | none => ""

/-- Job.add_omitted_record (job.py, lines 223-256): reject when the
identifier is already in omitted_records, else append; records is not
consulted. -/
def Job.add_omitted_record (j : Job) (record : OAIPMHRecord)
    (reason : Option String := none) : Job × Bool :=
  if j.omitted_records.any (fun r => r.identifier = record.identifier) then
    ({ j with log := j.log ++
        [⟨.error, "Tried to omit existing record (" ++ record.identifier ++ ")."⟩] },
      false)
  else
    ({ j with
        omitted_records := j.omitted_records ++ [record]
        log := j.log ++ [⟨.info, omitLogBody record.identifier reason⟩] },
      true)

/-- Job.omit_record (job.py, lines 258-303): when a record with the argument
identifier is found in records, rebuild records without that identifier and
append the argument record to omitted_records (omitted_records is not
checked for duplicates). -/
def Job.omit_record (j : Job) (record : OAIPMHRecord)
    (reason : Option String := none) : Job × Bool :=
  if j.records.any (fun r => r.identifier = record.identifier) then
    ({ j with
        records := j.records.filter (fun r => r.identifier ≠ record.identifier)
        omitted_records := j.omitted_records ++ [record]
        log := j.log ++ [⟨.info, omitLogBody record.identifier reason⟩] },
      true)
  else
    ({ j with log := j.log ++
        [⟨.error, "Tried to omit untracked record (" ++ record.identifier ++ ")."⟩] },
      false)

/-- A call to one of the three record-list mutators of Job. -/
inductive RecOp where
  | add (r : OAIPMHRecord)
  | addOmitted (r : OAIPMHRecord) (reason : Option String)
  | omitRec (r : OAIPMHRecord) (reason : Option String)

/-- Apply one record-list mutator, discarding the boolean result. -/
def Job.applyRecOp (j : Job) : RecOp → Job
  | .add r => (j.add_record r).1
  | .addOmitted r reason => (j.add_omitted_record r reason).1
  | .omitRec r reason => (j.omit_record r reason).1

/-- A call to one of the four state mutators of Job. -/
inductive StateOp where
  | start
  | pause
  | resume
  | end' (abort : Bool)

/-- Apply one state mutator (the clock argument is shared by all calls;
the flags do not depend on it). -/
def Job.applyStateOp (j : Job) (now : String) : StateOp → Job
  | .start => j.start now
  | .pause => j.pause
  | .resume => j.resume
  | .end' abort => j.end' now abort

/-- Mutable state of RepositoryInterface (repository_interface.py): the
preserve_log flag and the Logger.  base_url and timeout only shape the HTTP
request and are omitted; HTTP responses are supplied by oracles below. -/
structure RepositoryInterface where
  preserve_log : Bool := false
  log : Log := []
deriving DecidableEq, Repr

/-- Parsed outcome of one ListIdentifiers (or ListSets) HTTP round-trip:
a transport-level exception, an OAI-PMH error element (code and text), or a
payload of identifiers together with the parsed resumption token (the
several xmltodict shapes of the resumptionToken element collapse into this
Option). -/
inductive LIResponse where
  /-- requests raised (transport failure / non-2xx status). -/
  | exc (msg : String)
  /-- response carries an OAI-PMH error element. -/
  | err (code text : String)
  /-- identifiers and parsed resumption token of the page. -/
  | ok (ids : List String) (token : Option String)
deriving DecidableEq, Repr

/-- RepositoryInterface._check_for_oaipmh_errors (repository_interface.py,
lines 84-92): log code and text, report whether an error element is present.
The update is applied directly in each verb below on the err branch. -/
def logOaiError (l : Log) (code text : String) : Log :=
  l ++ [⟨.error, code ++ ": " ++ text⟩]

/-- RepositoryInterface.list_identifiers (repository_interface.py, lines
265-353).  Clears the log at entry unless preserve_log or a continuation
(non-null _resumption_token); raises ValueError when neither a resumption
token nor a metadata prefix is given; on an OAI-PMH error logs it and
returns an empty list together with the token that was passed in. -/
def RepositoryInterface.list_identifiers (ri : RepositoryInterface)
    (metadata_pfx : Option String) (tok : Option String) (resp : LIResponse) :
    RepositoryInterface × Except PyErr (List String × Option String) :=
  let ri := if !ri.preserve_log && tok = none then { ri with log := [] } else ri
  if tok = none && metadata_pfx = none then
    (ri, .error (.valueError "Missing _metadata_prefix for ListIdentifiers-request."))
  else
    match resp with
    | .exc msg => (ri, .error (.transport msg))
    | .err code text => ({ ri with log := logOaiError ri.log code text }, .ok ([], tok))
    | .ok ids token => (ri, .ok (ids, token))

/-- RepositoryInterface.list_sets (repository_interface.py, lines 355-405):
same log discipline and error handling as list_identifiers; the per-set
dictionaries are abstracted to strings. -/
def RepositoryInterface.list_sets (ri : RepositoryInterface)
    (tok : Option String) (resp : LIResponse) :
    RepositoryInterface × Except PyErr (List String × Option String) :=
  let ri := if !ri.preserve_log && tok = none then { ri with log := [] } else ri
  match resp with
  | .exc msg => (ri, .error (.transport msg))
  | .err code text => ({ ri with log := logOaiError ri.log code text }, .ok ([], tok))
  | .ok sets token => (ri, .ok (sets, token))

/-- Parsed outcome of one Identify or ListMetadataFormats round-trip. -/
inductive PlainResponse where
  | exc (msg : String)
  | err (code text : String)
  | ok (payload : List String)
deriving DecidableEq, Repr

/-- RepositoryInterface.identify (repository_interface.py, lines 94-106):
no log interaction at all; the parsed XML is abstracted to the payload. -/
def RepositoryInterface.identify (ri : RepositoryInterface)
    (resp : PlainResponse) :
    RepositoryInterface × Except PyErr (List String) :=
  match resp with
  | .exc msg => (ri, .error (.transport msg))
  | .err code text => (ri, .ok ["error:" ++ code ++ ":" ++ text])
  | .ok payload => (ri, .ok payload)

/-- RepositoryInterface.list_metadata_formats (repository_interface.py,
lines 108-143): clears the log at entry unless preserve_log (there is no
resumption token for this verb); on an OAI-PMH error logs it and returns
the empty list. -/
def RepositoryInterface.list_metadata_formats (ri : RepositoryInterface)
    (resp : PlainResponse) :
    RepositoryInterface × Except PyErr (List String) :=
  let ri := if !ri.preserve_log then { ri with log := [] } else ri
  match resp with
  | .exc msg => (ri, .error (.transport msg))
  | .err code text => ({ ri with log := logOaiError ri.log code text }, .ok [])
  | .ok formats => (ri, .ok formats)

/-- Parsed outcome of one GetRecord round-trip: transport exception, OAI-PMH
error, or the status attribute of the record header together with the raw
response text. -/
inductive GRResponse where
  | exc (msg : String)
  | err (code text : String)
  | ok (status : String) (raw : String)
deriving DecidableEq, Repr

/-- RepositoryInterface.get_record (repository_interface.py, lines 407-454):
clears the log at entry unless preserve_log (unconditionally, there is no
continuation for this verb); on OAI-PMH error logs it and returns none;
otherwise logs a warning when the header carries a status and returns the
record with metadata_raw set to the raw response. -/
def RepositoryInterface.get_record (ri : RepositoryInterface)
    (metadata_pfx : String) (identifier : String) (resp : GRResponse) :
    RepositoryInterface × Except PyErr (Option OAIPMHRecord) :=
  let ri := if !ri.preserve_log then { ri with log := [] } else ri
  match resp with
  | .exc msg => (ri, .error (.transport msg))
  | .err code text => ({ ri with log := logOaiError ri.log code text }, .ok none)
  | .ok status raw =>
    let ri := if status ≠ "" then
        { ri with log := ri.log ++
          [⟨.warning, "Record " ++ identifier ++ " has status " ++ status ++ "."⟩] }
      else ri
    (ri, .ok (some { identifier := identifier, status := status,
                     metadata_pfx := some metadata_pfx, metadata_raw := some raw }))

/-- Token-limit test of list_identifiers_exhaustive (repository_interface.py,
lines 254-257): the OverflowError is raised when a maximum is set and
tokens_count exceeds it while the maximum is positive (the Python chained
comparison tokens_count greater than max greater than 0). -/
def tokenLimitHit (mt : Option Int) (tokens_count : Nat) : Bool :=
  match mt with
  | none => false
  | some m => decide ((m : Int) < (tokens_count : Int)) && decide ((0 : Int) < m)

/-- Loop body of RepositoryInterface.list_identifiers_exhaustive
(repository_interface.py, lines 239-263), with the successive HTTP
round-trip outcomes supplied as a list (one entry per potential
list_identifiers call; none means the response list was exhausted before
the loop settled, which a real run never observes).  Returns the final
interface state, the result (identifier concatenation, OverflowError, or a
propagated exception) and the number of list_identifiers calls performed. -/
def lieGo (metadata_pfx : Option String) (mt : Option Int)
    (ri : RepositoryInterface) (acc : List String) (tokens_count : Nat)
    (tok : Option String) :
    List LIResponse → Option (RepositoryInterface × Except PyErr (List String) × Nat)
  | [] => none
  | resp :: rest =>
    match ri.list_identifiers metadata_pfx tok resp with
    | (ri, .error e) => some (ri, .error e, 1)
    | (ri, .ok (ids, token)) =>
      let acc := acc ++ ids
      match token with
      | none => some (ri, .ok acc, 1)
      | some t =>
        let tokens_count := tokens_count + 1
        if tokenLimitHit mt tokens_count then
          some (ri, .error .overflow, 1)
        else
          (lieGo metadata_pfx mt ri acc tokens_count (some t) rest).map
            (fun out => (out.1, out.2.1, out.2.2 + 1))

/-- RepositoryInterface.list_identifiers_exhaustive (repository_interface.py,
lines 211-263): start the loop with no token, empty accumulator and
tokens_count zero. -/
def RepositoryInterface.list_identifiers_exhaustive (ri : RepositoryInterface)
    (metadata_pfx : String) (mt : Option Int) (resps : List LIResponse) :
    Option (RepositoryInterface × Except PyErr (List String) × Nat) :=
  lieGo (some metadata_pfx) mt ri [] 0 none resps

/-- Inner loop of RepositoryInterface.list_records (repository_interface.py,
lines 507-523): one get_record call per identifier; a none record makes the
whole call return an empty list together with the _resumption_token that
was passed in. -/
def lrGo (metadata_pfx : String) (grOracle : String → GRResponse)
    (tokArg : Option String) (resumption_token : Option String)
    (ri : RepositoryInterface) (acc : List OAIPMHRecord) :
    List String → RepositoryInterface × Except PyErr (List OAIPMHRecord × Option String)
  | [] => (ri, .ok (acc, resumption_token))
  | id :: ids =>
    match ri.get_record metadata_pfx id (grOracle id) with
    | (ri, .error e) => (ri, .error e)
    | (ri, .ok none) => (ri, .ok ([], tokArg))
    | (ri, .ok (some record)) =>
      lrGo metadata_pfx grOracle tokArg resumption_token ri (acc ++ [record]) ids

/-- RepositoryInterface.list_records (repository_interface.py, lines
461-523): clears the log at entry unless preserve_log (note: regardless of
_resumption_token), then one list_identifiers call followed by one
get_record call per identifier. -/
def RepositoryInterface.list_records (ri : RepositoryInterface)
    (metadata_pfx : String) (tok : Option String) (liResp : LIResponse)
    (grOracle : String → GRResponse) :
    RepositoryInterface × Except PyErr (List OAIPMHRecord × Option String) :=
  let ri := if !ri.preserve_log then { ri with log := [] } else ri
  match ri.list_identifiers (some metadata_pfx) tok liResp with
  | (ri, .error e) => (ri, .error e)
  | (ri, .ok (ids, resumption_token)) =>
    lrGo metadata_pfx grOracle tok resumption_token ri [] ids

/-- Appending one entry to a job's log (job.py uses self._log.log(..)). -/
def Job.appendLog (j : Job) (e : LogEntry) : Job :=
  { j with log := j.log ++ [e] }

/-- Result of the identifier-enumeration phase of the harvest worker
(extraction_manager.py, lines 219-282): either the job was aborted (ended
with abort=true and the task returned), or the phase completed; pages is
the number of ListIdentifiers requests performed, chk the next checkpoint
index for the cancel-signal oracle. -/
inductive IdPhaseOut where
  | aborted (ri : RepositoryInterface) (job : Job) (pages : Nat)
  | done (ri : RepositoryInterface) (job : Job) (pages : Nat) (chk : Nat)

/-- Identifier-enumeration loop of ExtractionManager.harvest.job_task
(extraction_manager.py, lines 220-273).  The successive HTTP round-trip
outcomes are supplied as a list; abortQ is the cancel signal polled at the
enumerated checkpoints (abort_event.is_set()).  Transport failures
(requests.RequestException) and the badResumptionToken condition (non-null
token with empty identifier list) end the job with abort=true and leave the
loop; any other exception propagates (none occurs when a metadata prefix is
given).  Each good page's identifiers are added to the job as dummy
records. -/
def harvestIdPhase (now metadata_pfx : String) (abortQ : Nat → Bool)
    (ri : RepositoryInterface) (job : Job) (tok : Option String) (chk : Nat) :
    List LIResponse → Option (Except PyErr IdPhaseOut)
  | [] => none
  | resp :: rest =>
    match ri.list_identifiers (some metadata_pfx) tok resp with
    | (ri, .error (.transport _)) =>
      some (.ok (.aborted ri (job.end' now true) 1))
    | (_, .error e) => some (.error e)
    | (ri, .ok (ids, token)) =>
      if token.isSome && ids.isEmpty then
        some (.ok (.aborted ri (job.end' now true) 1))
      else
        let job := ids.foldl (fun j id => (j.add_record { identifier := id }).1) job
        match token with
        | none => some (.ok (.done ri job 1 chk))
        | some t =>
          if abortQ chk then
            some (.ok (.aborted ri (job.end' now true) 1))
          else
            (harvestIdPhase now metadata_pfx abortQ ri job (some t) (chk + 1) rest).map
              (fun out => out.map
                (fun o => match o with
                  | .aborted ri job pages => .aborted ri job (pages + 1)
                  | .done ri job pages chk => .done ri job (pages + 1) chk))

/-- Rendering of str(Logger) used when the worker copies the repository
interface's log into a message (dcm_common's exact format is irrelevant to
every claim; bodies joined by newlines stand in for it). -/
def logStr (l : Log) : String :=
  String.intercalate "\n" (l.map (fun e => e.body))

/-- In-place mutation of the record object shared between the snapshot
being iterated and job.records (extraction_manager.py, lines 318-324):
replace the fields of the record with this identifier. -/
def Job.updateRecord (j : Job) (id : String) (f : OAIPMHRecord → OAIPMHRecord) : Job :=
  { j with records := j.records.map (fun r => if r.identifier = id then f r else r) }

/-- Result of the record-fetch phase: final interface and job states, the
number of GetRecord requests performed, the next checkpoint index, and
whether the job was aborted in this phase. -/
structure RecPhaseOut where
  ri : RepositoryInterface
  job : Job
  fetches : Nat
  chk : Nat
  aborted : Bool

/-- Record-fetch loop of ExtractionManager.harvest.job_task
(extraction_manager.py, lines 305-373), iterating over the snapshot of
record identifiers taken when the loop starts.  On success the dummy
record's fields are filled in place and the user filter may move it to
omitted_records with reason Filter; transport failures and OAI-PMH errors
leave the record with complete=false and log an error; after every record
the cancel signal is polled. -/
def harvestRecPhase (now metadata_pfx : String)
    (filt : OAIPMHRecord → Bool) (abortQ : Nat → Bool)
    (grOracle : String → GRResponse) (ri : RepositoryInterface) (job : Job)
    (chk : Nat) : List String → Except PyErr RecPhaseOut
  | [] => .ok ⟨ri, job, 0, chk, false⟩
  | id :: ids =>
    let step : Except PyErr (RepositoryInterface × Job) :=
      match ri.get_record metadata_pfx id (grOracle id) with
      | (ri, .error (.transport msg)) =>
        .ok (ri, (job.updateRecord id (fun r => { r with complete := false })).appendLog
          ⟨.error, "A problem occurred while trying to execute GetRecord for "
            ++ id ++ ": '" ++ msg ++ "'"⟩)
      | (_, .error e) => .error e
      | (ri, .ok none) =>
        .ok (ri, (job.updateRecord id (fun r => { r with complete := false })).appendLog
          ⟨.error, "GetRecord for " ++ id ++ " returned error. \n" ++ logStr ri.log⟩)
      | (ri, .ok (some full)) =>
        let job := job.updateRecord id (fun r =>
          { r with status := full.status, metadata_raw := full.metadata_raw,
                   metadata_pfx := full.metadata_pfx, complete := true })
        let updated : OAIPMHRecord :=
          { identifier := id, status := full.status,
            metadata_pfx := full.metadata_pfx, metadata_raw := full.metadata_raw,
            complete := true }
        if !filt updated then
          .ok (ri, (job.omit_record updated (some "Filter")).1)
        else
          .ok (ri, job.appendLog ⟨.info, "Record " ++ id ++ " marked complete."⟩)
    match step with
    | .error e => .error e
    | .ok (ri, job) =>
      if abortQ chk then
        .ok ⟨ri, job.end' now true, 1, chk + 1, true⟩
      else
        match harvestRecPhase now metadata_pfx filt abortQ grOracle ri job (chk + 1) ids with
        | .error e => .error e
        | .ok out => .ok { out with fetches := out.fetches + 1 }

/-- Final observable state of one harvest worker run: interface and job
states, number of ListIdentifiers page requests and number of GetRecord
fetches performed. -/
structure WorkerOut where
  ri : RepositoryInterface
  job : Job
  pages : Nat
  fetches : Nat

/-- Tail of ExtractionManager.harvest.job_task after identifier enumeration
(extraction_manager.py, lines 293-398): log the identifier count, fetch all
records, run the post-harvest callback (parameter postH: harvest's default
does nothing, extract binds the extraction routine), honor the cancel
signal, end the job, run the final callback (modelled as effect-free, the
default), honor the cancel signal again (a set signal at this point ends
the ended job once more with abort=true). -/
def harvestTail (now metadata_pfx : String) (filt : OAIPMHRecord → Bool)
    (abortQ : Nat → Bool) (postH : Job → Job) (grOracle : String → GRResponse)
    (ri : RepositoryInterface) (job : Job) (pages : Nat) (chk : Nat) :
    Except PyErr WorkerOut :=
  let job := job.appendLog ⟨.info, "Job is associated with "
    ++ toString job.records.length ++ " identifier(s)."⟩
  match harvestRecPhase now metadata_pfx filt abortQ grOracle ri job chk
      (job.records.map (fun r => r.identifier)) with
  | .error e => .error e
  | .ok out =>
    if out.aborted then
      .ok ⟨out.ri, out.job, pages, out.fetches⟩
    else
      let job := out.job.appendLog ⟨.info, "Harvest of metadata complete."⟩
      let job := postH job
      if abortQ out.chk then
        .ok ⟨out.ri, job.end' now true, pages, out.fetches⟩
      else
        let job := job.end' now false
        if abortQ (out.chk + 1) then
          .ok ⟨out.ri, job.end' now true, pages, out.fetches⟩
        else
          .ok ⟨out.ri, job, pages, out.fetches⟩

/-- ExtractionManager.harvest.job_task (extraction_manager.py, lines
212-398): start the job, enumerate identifiers (from the _identifiers
argument when given, else by paged ListIdentifiers requests with outcomes
pages), then fetch records and finish via harvestTail.  A page-phase abort
returns immediately: no GetRecord request is ever made. -/
def job_task (now metadata_pfx : String) (idsArg : Option (List String))
    (filt : OAIPMHRecord → Bool) (abortQ : Nat → Bool) (postH : Job → Job)
    (grOracle : String → GRResponse) (pages : List LIResponse)
    (ri : RepositoryInterface) (job : Job) : Option (Except PyErr WorkerOut) :=
  let job := job.start now
  match idsArg with
  | none =>
    match harvestIdPhase now metadata_pfx abortQ ri job none 0 pages with
    | none => none
    | some (.error e) => some (.error e)
    | some (.ok (.aborted ri job p)) => some (.ok ⟨ri, job, p, 0⟩)
    | some (.ok (.done ri job p chk)) =>
      some (harvestTail now metadata_pfx filt abortQ postH grOracle ri job p chk)
  | some ids =>
    let job := ids.foldl (fun j id => (j.add_record { identifier := id }).1) job
    some (harvestTail now metadata_pfx filt abortQ postH grOracle ri job 0 0)

/-- A resolved output filename, as a pathlib name split into stem and
suffix (name = stem ++ suffix). -/
structure PyPath where
  stem : String
  suffix : String
deriving DecidableEq, Repr

/-- The final path component. -/
def PyPath.name (p : PyPath) : String := p.stem ++ p.suffix

/-- Filename-collision loop of PayloadCollector.download_file
(payload_collector.py, lines 236-248), iterating i over range(0, 10):
at i=9 raise FileExistsError; if dir/filename is not an existing file,
keep filename; otherwise the source constructs
filename.with_name(filename.stem + "_i" + path.suffix) — note: the suffix
of the target directory, and the constructed path is not assigned back, so
the probed filename never changes (mirrored here by the discarded
candidate binding). -/
def collisionLoopGo (is_file : String → Bool) (dirSuffix url : String)
    (filename : PyPath) : List Nat → Except PyErr PyPath
  | [] => .error (.fileExists "unreachable: range(0,10) always reaches i=9")
  | i :: rest =>
    if i = 9 then
      .error (.fileExists ("Cannot find valid filename for requested file with url '"
        ++ url ++ "'."))
    else if !is_file filename.name then
      .ok filename
    else
      let _candidate : String := filename.stem ++ "_" ++ toString i ++ dirSuffix
      collisionLoopGo is_file dirSuffix url filename rest

/-- Filename choice of PayloadCollector.download_file for an already
resolved filename: run the collision loop over range(0, 10). -/
def download_file_filename (is_file : String → Bool) (dirSuffix url : String)
    (filename : PyPath) : Except PyErr PyPath :=
  collisionLoopGo is_file dirSuffix url filename (List.range 10)

/-- One raw match of a regex on a text: the full matched text and the
texts of the capture groups, as produced by the regex engine (the engine
itself is the oracle). -/
structure RawMatch where
  full : String
  groups : List String
deriving DecidableEq, Repr

/-- An element of the list returned by re.findall: a string when the
pattern has at most one capture group, the tuple of group texts when it
has two or more. -/
inductive PyVal where
  | s (x : String)
  | tup (xs : List String)
deriving DecidableEq, Repr

/-- CPython re.findall packaging (Python library reference, re.findall):
no groups — the full match; exactly one group — that group's text; two or
more groups — the tuple of all group texts. -/
def findall (numGroups : Nat) (ms : List RawMatch) : List PyVal :=
  if numGroups = 0 then ms.map (fun m => .s m.full)
  else if numGroups = 1 then ms.map (fun m => .s (m.groups.headD ""))
  else ms.map (fun m => .tup m.groups)

/-- Python truthiness of a findall element as tested by filter(None, ·):
the empty string and the empty tuple are falsy, every non-empty tuple is
truthy (even when all its component strings are empty). -/
def PyVal.truthy : PyVal → Bool
  | .s x => x ≠ ""
  | .tup xs => !xs.isEmpty

/-- TransferUrlFilters.filter_by_regex (payload_collector.py, lines 29-51):
null metadata yields []; otherwise findall on the whole text, discarding
falsy elements (the `matches is not None` test in the source is always
true, findall returns a list).  The regex is represented by its group
count and its match oracle. -/
def filter_by_regex (numGroups : Nat) (rxMatches : String → List RawMatch)
    (source_metadata : Option String) : List PyVal :=
  match source_metadata with
  | none => []
  | some sm => (findall numGroups (rxMatches sm)).filter PyVal.truthy

/-- TransferUrlFilters.filter_by_regex_in_xml_path (payload_collector.py,
lines 53-89): null metadata yields []; value_from_dict_path is the oracle
fields (none when the path is absent; a bare string arrives as a singleton
list); each non-null entry is matched and falsy elements discarded. -/
def filter_by_regex_in_xml_path (numGroups : Nat)
    (rxMatches : String → List RawMatch)
    (fields : String → Option (List (Option String)))
    (source_metadata : Option String) : List PyVal :=
  match source_metadata with
  | none => []
  | some sm =>
    match fields sm with
    | none => []
    | some xs =>
      xs.foldl (fun urls x =>
        match x with
        | none => urls
        | some t => urls ++ (findall numGroups (rxMatches t)).filter PyVal.truthy) []

/-- TransferUrlFilters.filter_by_regex_with_xpath_query
(payload_collector.py, lines 91-137): null metadata yields []; the XPath
evaluation returns element texts via the oracle findtexts (none for an
element without text); each text is matched and falsy elements
discarded. -/
def filter_by_regex_with_xpath_query (numGroups : Nat)
    (rxMatches : String → List RawMatch)
    (findtexts : String → List (Option String))
    (source_metadata : Option String) : List PyVal :=
  match source_metadata with
  | none => []
  | some sm =>
    (findtexts sm).foldl (fun urls x =>
      match x with
      | none => urls
      | some t => urls ++ (findall numGroups (rxMatches t)).filter PyVal.truthy) []

/-- Whether pat occurs at the head of the character list. -/
def listHeadMatch : List Char → List Char → Bool
  | [], _ => true
  | _ :: _, [] => false
  | a :: as, b :: bs => a = b && listHeadMatch as bs

/-- Whether pat occurs anywhere in the character list. -/
def listHasSub (pat : List Char) : List Char → Bool
  | [] => pat.isEmpty
  | c :: rest => listHeadMatch pat (c :: rest) || listHasSub pat rest

/-- The Python `pat in s` substring test. -/
def strContains (s pat : String) : Bool := listHasSub pat.data s.data

/-- Outcome of invoking one transfer-url filter inside the payload
collector: the url list, or a raised SyntaxError with its message. -/
inductive FilterOut where
  | ok (urls : List String)
  | raise (msg : String)

/-- Filter loop of PayloadCollector.download_record_payload
(payload_collector.py, lines 307-324): concatenate the url lists of all
filters in order; a SyntaxError whose message contains
"not found in prefix map" is logged and the next filter runs; any other
SyntaxError propagates. -/
def pcExtractGo (md : Option String) (idx : Nat) (urls : List String)
    (log : Log) : List (Option String → FilterOut) →
    List String × Log × Option PyErr
  | [] => (urls, log, none)
  | f :: fs =>
    match f md with
    | .ok us => pcExtractGo md (idx + 1) (urls ++ us) log fs
    | .raise msg =>
      if strContains msg "not found in prefix map" then
        pcExtractGo md (idx + 1) urls
          (log ++ [⟨.error, "Failed to generate url with filter " ++ toString idx
            ++ ". XPath contains unknown namespace: " ++ msg ++ "."⟩]) fs
      else
        (urls, log, some (.synErr msg))

/-- Outcome of one download_file call inside the per-record download loop:
a local path, a caught KeyError/FileNotFoundError, or a propagating
exception. -/
inductive DLOut where
  | ok (path : String)
  | keyOrNotFound (msg : String)
  | raise (e : PyErr)

/-- Download loop of PayloadCollector.download_record_payload
(payload_collector.py, lines 364-376): per file set path and complete on
success; log and continue on KeyError/FileNotFoundError; any other
exception propagates. -/
def pcDownloadGo (dl : String → DLOut) (log : Log) (done : List File) :
    List File → List File × Log × Except PyErr Unit
  | [] => (done, log, .ok ())
  | f :: fs =>
    match dl f.url with
    | .ok p =>
      pcDownloadGo dl log (done ++ [{ f with path := some p, complete := true }]) fs
    | .keyOrNotFound msg =>
      pcDownloadGo dl (log ++ [⟨.error, "Download failed: " ++ msg ++ "."⟩])
        (done ++ [f]) fs
    | .raise e => (done ++ (f :: fs), log, .error e)

/-- TypeError message of download_record_payload when no path is given
(payload_collector.py, lines 354-361). -/
def missingPathMsg : String :=
  "Missing expected filesystem path as argument in call to download_record_payload."

/-- Combined record state, collector log and result of one
download_record_payload call. -/
structure PCOut where
  record : OAIPMHRecord
  log : Log
  result : Except PyErr Unit
deriving Repr

/-- Tail of PayloadCollector.download_record_payload after the optional
url-renewal block (payload_collector.py, lines 349-376): return when
skip_download; log and raise TypeError when no path was given; otherwise
run the download loop. -/
def pcAfterRenew (dl : String → DLOut) (record : OAIPMHRecord)
    (path : Option String) (skip_download : Bool) (log : Log) : PCOut :=
  if skip_download then ⟨record, log, .ok ()⟩
  else
    match path with
    | none =>
      ⟨record, log ++ [⟨.error, missingPathMsg⟩], .error (.typeError missingPathMsg)⟩
    | some _ =>
      let (files, log, res) := pcDownloadGo dl log [] record.files
      ⟨{ record with files := files }, log, res⟩

/-- PayloadCollector.download_record_payload (payload_collector.py, lines
277-376).  When renew_urls is set or record.files is empty: clear
record.files, run every filter on record.metadata_raw (collecting urls,
swallowing unknown-namespace SyntaxErrors, propagating others),
de-duplicate the urls (Python builds a set; the oracle order stands in for
the unspecified set iteration order), log the outcome and register the
urls as Files; then hand over to pcAfterRenew. -/
def download_record_payload (filters : List (Option String → FilterOut))
    (dl : String → DLOut) (record : OAIPMHRecord) (path : Option String)
    (renew_urls : Bool) (skip_download : Bool) (log : Log) : PCOut :=
  if renew_urls || record.files.isEmpty then
    let record := { record with files := [] }
    match pcExtractGo record.metadata_raw 0 [] log filters with
    | (_, log, some e) => ⟨record, log, .error e⟩
    | (urls, log, none) =>
      let url_set := urls.eraseDups
      let log := log ++ [if url_set.length > 0 then
          ⟨.info, "Filter on '" ++ record.identifier
            ++ "'-metadata returned the following urls: "
            ++ String.intercalate ", " (url_set.map (fun s => "'" ++ s.trim ++ "'"))⟩
        else
          ⟨.warning, "Got no payload-urls from metadata of '"
            ++ record.identifier ++ "'."⟩]
      let record := record.register_files_by_url url_set
      pcAfterRenew dl record path skip_download log
  else
    pcAfterRenew dl record path skip_download log

/-- A UTC timestamp as read from datetime.utcnow(), with the fields the
format directives of job.py use. -/
structure PyDateTime where
  year : Nat
  month : Nat
  day : Nat
  hour : Nat
  minute : Nat
  second : Nat
  microsecond : Nat
deriving DecidableEq, Repr

/-- Decimal rendering of n zero-padded to width w. -/
def padNum (w n : Nat) : String :=
  let s := toString n
  (String.mk (List.replicate (w - s.length) '0')) ++ s

/-- Expansion of one strftime conversion directive for the directives
appearing in job.py (Y m d H M S f and the escaped percent); an unknown
directive is kept verbatim, as glibc strftime does. -/
def fmtDirective (t : PyDateTime) (c : Char) : List Char :=
  if c = 'Y' then (padNum 4 t.year).data
  else if c = 'm' then (padNum 2 t.month).data
  else if c = 'd' then (padNum 2 t.day).data
  else if c = 'H' then (padNum 2 t.hour).data
  else if c = 'M' then (padNum 2 t.minute).data
  else if c = 'S' then (padNum 2 t.second).data
  else if c = 'f' then (padNum 6 t.microsecond).data
  else if c = '%' then ['%']
  else ['%', c]

/-- datetime.strftime over a character list: a percent consumes the next
character as a directive (a trailing lone percent stays itself); every
other character is copied. -/
def strftimeChars (t : PyDateTime) : List Char → List Char
  | [] => []
  | c :: rest =>
    if c = '%' then
      match rest with
      | [] => ['%']
      | d :: rest2 => fmtDirective t d ++ strftimeChars t rest2
    else c :: strftimeChars t rest

/-- datetime.strftime on a string. -/
def strftime (t : PyDateTime) (s : String) : String :=
  String.mk (strftimeChars t s.data)

/-- The fixed format suffix of Job.generate_identifier (job.py, line 315). -/
def genIdFormat : String := "%Y-%m-%d %H:%M:%S.%f"

/-- UTF-8 encoding of one character (RFC 3629), as str.encode produces. -/
def utf8Char (c : Char) : List Nat :=
  let n := c.toNat
  if n < 128 then [n]
  else if n < 2048 then
    [192 + n / 64, 128 + n % 64]
  else if n < 65536 then
    [224 + n / 4096, 128 + n / 64 % 64, 128 + n % 64]
  else
    [240 + n / 262144, 128 + n / 4096 % 64, 128 + n / 64 % 64, 128 + n % 64]

/-- UTF-8 encoding of a string as a byte list. -/
def utf8Encode (s : String) : List Nat :=
  s.data.foldr (fun c acc => utf8Char c ++ acc) []

/-- Addition modulo 2^32. -/
def add32 (x y : Nat) : Nat := (x + y) % 4294967296

/-- Right rotation of a 32-bit word by n. -/
def rotr32 (n x : Nat) : Nat := (x >>> n ||| x <<< (32 - n)) % 4294967296

/-- SHA-256 small sigma 0. -/
def ssig0 (x : Nat) : Nat := rotr32 7 x ^^^ rotr32 18 x ^^^ x >>> 3

/-- SHA-256 small sigma 1. -/
def ssig1 (x : Nat) : Nat := rotr32 17 x ^^^ rotr32 19 x ^^^ x >>> 10

/-- SHA-256 big sigma 0. -/
def bsig0 (x : Nat) : Nat := rotr32 2 x ^^^ rotr32 13 x ^^^ rotr32 22 x

/-- SHA-256 big sigma 1. -/
def bsig1 (x : Nat) : Nat := rotr32 6 x ^^^ rotr32 11 x ^^^ rotr32 25 x

/-- SHA-256 choice function. -/
def shaCh (x y z : Nat) : Nat := (x &&& y) ^^^ ((x ^^^ 4294967295) &&& z)

/-- SHA-256 majority function. -/
def shaMaj (x y z : Nat) : Nat := (x &&& y) ^^^ (x &&& z) ^^^ (y &&& z)

/-- The 64 SHA-256 round constants. -/
def shaK : List Nat :=
  [1116352408, 1899447441, 3049323471, 3921009573,
   961987163, 1508970993, 2453635748, 2870763221,
   3624381080, 310598401, 607225278, 1426881987,
   1925078388, 2162078206, 2614888103, 3248222580,
   3835390401, 4022224774, 264347078, 604807628,
   770255983, 1249150122, 1555081692, 1996064986,
   2554220882, 2821834349, 2952996808, 3210313671,
   3336571891, 3584528711, 113926993, 338241895,
   666307205, 773529912, 1294757372, 1396182291,
   1695183700, 1986661051, 2177026350, 2456956037,
   2730485921, 2820302411, 3259730800, 3345764771,
   3516065817, 3600352804, 4094571909, 275423344,
   430227734, 506948616, 659060556, 883997877,
   958139571, 1322822218, 1537002063, 1747873779,
   1955562222, 2024104815, 2227730452, 2361852424,
   2428436474, 2756734187, 3204031479, 3329325298]

/-- The SHA-256 working registers a-h (h written hreg). -/
structure ShaState where
  a : Nat
  b : Nat
  c : Nat
  d : Nat
  e : Nat
  f : Nat
  g : Nat
  hreg : Nat
deriving DecidableEq, Repr

/-- The SHA-256 initial hash value. -/
def shaInit : ShaState :=
  ⟨1779033703, 3144134277, 1013904242, 2773480762,
   1359893119, 2600822924, 528734635, 1541459225⟩

/-- One SHA-256 compression round for schedule word w and constant k. -/
def shaRound (st : ShaState) (wk : Nat × Nat) : ShaState :=
  let t1 := add32 st.hreg (add32 (bsig1 st.e)
    (add32 (shaCh st.e st.f st.g) (add32 wk.2 wk.1)))
  let t2 := add32 (bsig0 st.a) (shaMaj st.a st.b st.c)
  ⟨add32 t1 t2, st.a, st.b, st.c, add32 st.d t1, st.e, st.f, st.g⟩

/-- Extension step of the message schedule: append the next word computed
from the four taps. -/
def shaExtendStep (w : List Nat) : List Nat :=
  let n := w.length
  w ++ [add32 (add32 (w.getD (n - 16) 0) (ssig0 (w.getD (n - 15) 0)))
        (add32 (w.getD (n - 7) 0) (ssig1 (w.getD (n - 2) 0)))]

/-- The 64-word message schedule from the 16 words of a block. -/
def shaSchedule (ws : List Nat) : List Nat :=
  Nat.rec ws (fun _ acc => shaExtendStep acc) 48

/-- Big-endian decomposition of a 32-bit word into 4 bytes. -/
def wordBytes (w : Nat) : List Nat :=
  [w >>> 24 % 256, w >>> 16 % 256, w >>> 8 % 256, w % 256]

/-- Big-endian composition of 4 bytes into a word. -/
def bytesWord : List Nat → Nat
  | [b0, b1, b2, b3] => ((b0 * 256 + b1) * 256 + b2) * 256 + b3
  | _ => 0

/-- Split a list into chunks of n (the i-th chunk by take and drop, so the
definition is structural and kernel-reducible). -/
def chunksOf (n : Nat) (l : List Nat) : List (List Nat) :=
  (List.range ((l.length + n - 1) / n)).map (fun i => (l.drop (i * n)).take n)

/-- Process one 64-byte block: run 64 rounds from the current hash value
and add the result back in. -/
def shaBlock (st : ShaState) (block : List Nat) : ShaState :=
  let ws := shaSchedule ((chunksOf 4 block).map bytesWord)
  let r := (ws.zip shaK).foldl shaRound st
  ⟨add32 st.a r.a, add32 st.b r.b, add32 st.c r.c, add32 st.d r.d,
   add32 st.e r.e, add32 st.f r.f, add32 st.g r.g, add32 st.hreg r.hreg⟩

/-- Big-endian byte rendering of n to the given width. -/
def natBytesBE (width n : Nat) : List Nat :=
  Nat.rec (fun _ => []) (fun _ ih m => ih (m / 256) ++ [m % 256]) width n

/-- SHA-256 padding: one 0x80 byte, zeros to 56 mod 64, and the bit length
as 8 big-endian bytes. -/
def shaPad (msg : List Nat) : List Nat :=
  msg ++ [128] ++ List.replicate ((119 - msg.length % 64) % 64) 0
    ++ natBytesBE 8 (msg.length * 8)

/-- Big-endian byte rendering of a word list. -/
def wordsToBytes (ws : List Nat) : List Nat :=
  ws.foldr (fun w acc => wordBytes w ++ acc) []

/-- The SHA-256 digest of a byte list, as 32 bytes. -/
def sha256 (msg : List Nat) : List Nat :=
  let final := (chunksOf 64 (shaPad msg)).foldl shaBlock shaInit
  wordsToBytes [final.a, final.b, final.c, final.d,
                final.e, final.f, final.g, final.hreg]

/-- The lowercase hexadecimal digit for n below 16. -/
def hexDigit (n : Nat) : Char :=
  if n < 10 then Char.ofNat (48 + n) else Char.ofNat (87 + n)

/-- Two lowercase hexadecimal digits of a byte. -/
def hexByte (b : Nat) : List Char :=
  [hexDigit (b / 16), hexDigit (b % 16)]

/-- The lowercase hexadecimal rendering of a byte list. -/
def hexOfBytes (bs : List Nat) : List Char :=
  bs.foldr (fun b acc => hexByte b ++ acc) []

/-- hashlib's hexdigest of the SHA-256 of a byte list. -/
def sha256_hexdigest (msg : List Nat) : String :=
  String.mk (hexOfBytes (sha256 msg))

/-- Job.generate_identifier (job.py, lines 310-318): the SHA-256 hexdigest
of the UTF-8 encoding of datetime.utcnow().strftime(seed + format) — note:
strftime runs over the concatenation, so percent signs inside the seed are
expanded as conversion directives. -/
def Job.generate_identifier (now : PyDateTime) (seed : String) : String :=
  sha256_hexdigest (utf8Encode (strftime now (seed ++ genIdFormat)))

/-- Modelled from the spec (section 4.4 Identifier generation), for
comparison with Job.generate_identifier: the SHA-256 hexdigest of the
UTF-8 bytes of seed + current_UTC.strftime(format), the seed passed
through verbatim. -/
def generate_identifier_specModel (now : PyDateTime) (seed : String) : String :=
  sha256_hexdigest (utf8Encode (seed ++ strftime now genIdFormat))

/-- The record identifiers currently tracked in a job's records list. -/
def Job.recordIds (j : Job) : List String :=
  j.records.map (fun r => r.identifier)

/-- A concrete record used in counterexamples. -/
def rec0 : OAIPMHRecord := { identifier := "r0" }

/-- C2: the claim fails on the code.  Job.add_record only scans records
(job.py, lines 112-123) and never omitted_records, so adding a record whose
identifier was first registered via add_omitted_record puts the identifier
into both lists. -/
theorem C2_counterexample :
    (((((Job.init "job" "" "t").add_omitted_record rec0 none).1.add_record
        rec0).1.records.map (fun r => r.identifier)).contains "r0" = true)
    ∧ (((((Job.init "job" "" "t").add_omitted_record rec0 none).1.add_record
        rec0).1.omitted_records.map (fun r => r.identifier)).contains "r0" = true) := by
  decide

/-- Identifiers never repeat inside the records list after one more
record-list mutator call. -/
theorem applyRecOp_nodup (j : Job) (op : RecOp)
    (h : j.recordIds.Nodup) : (j.applyRecOp op).recordIds.Nodup := by
  cases op with
  | add r =>
    by_cases hmem : j.records.any (fun q => q.identifier = r.identifier)
    · simp [Job.applyRecOp, Job.add_record, hmem, Job.recordIds] at h ⊢
      exact h
    · simp [Job.applyRecOp, Job.add_record, hmem, Job.recordIds] at h ⊢
      refine List.Nodup.append h (by simp) ?_
      intro x hx hx'
      simp at hx'
      subst hx'
      simp [List.any_eq_true] at hmem
      rcases List.mem_map.mp hx with ⟨q, hq, hqid⟩
      exact hmem q hq hqid
  | addOmitted r reason =>
    by_cases hmem : j.omitted_records.any (fun q => q.identifier = r.identifier) <;>
      simpa [Job.applyRecOp, Job.add_omitted_record, hmem, Job.recordIds] using h
  | omitRec r reason =>
    by_cases hmem : j.records.any (fun q => q.identifier = r.identifier)
    · simp [Job.applyRecOp, Job.omit_record, hmem, Job.recordIds] at h ⊢
      exact h.sublist (List.Sublist.map _ (List.filter_sublist _))
    · simpa [Job.applyRecOp, Job.omit_record, hmem, Job.recordIds] using h

/-- Identifiers never repeat inside the records list after any sequence of
record-list mutator calls. -/
theorem foldl_applyRecOp_nodup (ops : List RecOp) (j : Job)
    (h : j.recordIds.Nodup) : (ops.foldl Job.applyRecOp j).recordIds.Nodup := by
  induction ops generalizing j with
  | nil => exact h
  | cons op ops ih => exact ih _ (applyRecOp_nodup j op h)

/-- C2 amended: after any sequence of add_record, add_omitted_record and
omit_record calls on a fresh job, the identifiers inside the records list
are pairwise distinct; the claimed disjointness from omitted_records (and
uniqueness inside omitted_records) is not maintained by the code, as the
counterexample shows. -/
theorem C2_amended (ops : List RecOp) (id desc now : String) :
    (ops.foldl Job.applyRecOp (Job.init id desc now)).recordIds.Nodup := by
  exact foldl_applyRecOp_nodup ops _ (by simp [Job.init, Job.recordIds])

/-- C3: the claim fails on the code.  Job.end (job.py, lines 86-96) never
clears the paused flag, so ending a paused job without abort leaves both
paused and complete true. -/
theorem C3_counterexample :
    ((Job.end' ((Job.init "job" "" "t").start "t").pause "t" false).paused = true)
    ∧ ((Job.end' ((Job.init "job" "" "t").start "t").pause "t" false).complete
        = true) := by
  decide

/-- The flag invariant that the code does maintain: running excludes both
paused and complete. -/
def flagInv (j : Job) : Prop :=
  ¬(j.running = true ∧ j.paused = true) ∧ ¬(j.running = true ∧ j.complete = true)

/-- One state mutator call preserves the flag invariant. -/
theorem applyStateOp_flagInv (j : Job) (now : String) (op : StateOp)
    (h : flagInv j) : flagInv (j.applyStateOp now op) := by
  cases op with
  | start =>
    by_cases hg : (!j.running && !j.paused) = true
    · simp only [Bool.and_eq_true, Bool.not_eq_true'] at hg
      simp only [Job.applyStateOp, Job.start, Bool.and_eq_true, Bool.not_eq_true',
        hg, and_self, if_true, flagInv]
      simp [hg.2]
    · simp only [Job.applyStateOp, Job.start, if_neg hg]
      exact h
  | pause =>
    by_cases hg : j.running = true
    · simp only [Job.applyStateOp, Job.pause, if_pos hg, flagInv]
      simp
    · simp only [Job.applyStateOp, Job.pause, if_neg hg]
      exact h
  | resume =>
    by_cases hg : j.paused = true
    · simp only [Job.applyStateOp, Job.resume, if_pos hg, flagInv]
      simp
    · simp only [Job.applyStateOp, Job.resume, if_neg hg]
      exact h
  | end' abort =>
    simp only [Job.applyStateOp, Job.end', flagInv]
    simp

/-- C3 amended: after any sequence of start, pause, resume and end calls on
a fresh job, running excludes both paused and complete (all three flags
false is permitted); however paused and complete may hold simultaneously —
end(abort=false) on a paused job produces exactly that, as the
counterexample shows. -/
theorem C3_amended (ops : List StateOp) (id desc now now2 : String) :
    flagInv (ops.foldl (fun j op => j.applyStateOp now2 op) (Job.init id desc now)) := by
  have h0 : flagInv (Job.init id desc now) := by simp [Job.init, flagInv]
  revert h0
  generalize Job.init id desc now = j
  intro h0
  induction ops generalizing j with
  | nil => exact h0
  | cons op ops ih => exact ih _ (applyStateOp_flagInv j now2 op h0)

/-- A concrete filesystem oracle for the C5 counterexample: exactly
file.txt exists in the target directory. -/
def c5IsFile (n : String) : Bool := n = "file.txt"

/-- C5: the claim fails on the code.  With file.txt existing and every
variant file_0.txt, file_1.txt, ... free, the claim promises the first
non-colliding candidate, but download_file raises FileExistsError: the
loop in payload_collector.py lines 236-248 discards the constructed
variant and re-probes the identical filename ten times. -/
theorem C5_counterexample :
    download_file_filename c5IsFile ".txt" "u" ⟨"file", ".txt"⟩
      = .error (.fileExists
          "Cannot find valid filename for requested file with url 'u'.")
    ∧ c5IsFile ("file" ++ "_0" ++ ".txt") = false := by
  exact ⟨rfl, by decide⟩

/-- C5 amended: the collision loop never rebinds the probed filename, so
download_file returns the initially resolved filename when it does not
name an existing file and raises FileExistsError whenever it does —
candidate variants are computed but have no effect. -/
theorem C5_amended (is_file : String → Bool) (dirSuffix url : String)
    (f : PyPath) :
    download_file_filename is_file dirSuffix url f
      = if is_file f.name then
          .error (.fileExists
            ("Cannot find valid filename for requested file with url '"
              ++ url ++ "'."))
        else .ok f := by
  have h10 : List.range 10 = [0, 1, 2, 3, 4, 5, 6, 7, 8, 9] := rfl
  unfold download_file_filename
  rw [h10]
  cases hf : is_file f.name <;>
    simp [collisionLoopGo, hf]

/-- C8: the claim fails on the code.  generate_identifier applies strftime
to seed + format (job.py, line 315), so a seed containing percent signs is
itself expanded as conversion directives; at seed "%%" the digest differs
from the digest of the verbatim seed followed by the formatted time. -/
theorem C8_counterexample :
    Job.generate_identifier ⟨2024, 1, 2, 3, 4, 5, 6⟩ "%%"
      ≠ generate_identifier_specModel ⟨2024, 1, 2, 3, 4, 5, 6⟩ "%%" := by
  decide

/-- Unfolding of strftime at a cons cell with an ordinary character. -/
theorem strftimeChars_cons_ne (t : PyDateTime) (c : Char) (l : List Char)
    (hc : ¬ c = '%') : strftimeChars t (c :: l) = c :: strftimeChars t l := by
  rw [strftimeChars.eq_def]
  simp [hc]

/-- strftime copies a directive-free character prefix verbatim. -/
theorem strftimeChars_append (t : PyDateTime) (l m : List Char)
    (h : '%' ∉ l) : strftimeChars t (l ++ m) = l ++ strftimeChars t m := by
  induction l with
  | nil => simp
  | cons c rest ih =>
    have hc : ¬ c = '%' := fun hc => h (hc ▸ List.mem_cons_self c rest)
    have hrest : '%' ∉ rest := fun hr => h (List.mem_cons_of_mem c hr)
    rw [List.cons_append, strftimeChars_cons_ne t c _ hc, ih hrest,
      List.cons_append]

/-- Every byte of a word rendering is below 256. -/
theorem wordBytes_lt (w : Nat) : ∀ b ∈ wordBytes w, b < 256 := by
  simp only [wordBytes, List.mem_cons, List.not_mem_nil, or_false]
  intro b hb
  rcases hb with h | h | h | h <;> subst h <;> exact Nat.mod_lt _ (by norm_num)

/-- Every byte of a word-list rendering is below 256. -/
theorem wordsToBytes_lt (ws : List Nat) : ∀ b ∈ wordsToBytes ws, b < 256 := by
  induction ws with
  | nil => simp [wordsToBytes]
  | cons w ws ih =>
    intro b hb
    simp only [wordsToBytes, List.foldr_cons, List.mem_append] at hb
    rcases hb with h | h
    · exact wordBytes_lt w b h
    · exact ih b h

/-- Every byte of a SHA-256 digest is below 256. -/
theorem sha256_lt (msg : List Nat) : ∀ b ∈ sha256 msg, b < 256 := by
  intro b hb
  exact wordsToBytes_lt _ b hb

/-- The hexadecimal digit of a value below 16 is a lowercase hex
character. -/
theorem hexDigit_mem (n : Nat) (h : n < 16) :
    hexDigit n ∈ "0123456789abcdef".data := by
  interval_cases n <;> decide

/-- The hexadecimal rendering of a byte list of bytes is made of lowercase
hex characters. -/
theorem hexOfBytes_mem (bs : List Nat) (hlt : ∀ b ∈ bs, b < 256) :
    ∀ c ∈ hexOfBytes bs, c ∈ "0123456789abcdef".data := by
  induction bs with
  | nil => simp [hexOfBytes]
  | cons b bs ih =>
    intro c hc
    simp only [hexOfBytes, List.foldr_cons, hexByte, List.cons_append,
      List.nil_append, List.mem_cons] at hc
    have hb : b < 256 := hlt b (List.mem_cons_self b bs)
    rcases hc with h | h | h
    · exact h ▸ hexDigit_mem _ (Nat.div_lt_of_lt_mul (by omega))
    · exact h ▸ hexDigit_mem _ (Nat.mod_lt _ (by norm_num))
    · exact ih (fun x hx => hlt x (List.mem_cons_of_mem b hx)) c h

/-- A SHA-256 hexdigest has 64 characters. -/
theorem sha256_hexdigest_length (msg : List Nat) :
    (sha256_hexdigest msg).length = 64 := rfl

/-- A SHA-256 hexdigest is made of lowercase hex characters. -/
theorem sha256_hexdigest_mem (msg : List Nat) :
    ∀ c ∈ (sha256_hexdigest msg).data, c ∈ "0123456789abcdef".data := by
  intro c hc
  exact hexOfBytes_mem _ (sha256_lt msg) c hc

/-- C8 amended: generate_identifier is the 64-character lowercase
hexadecimal SHA-256 digest of the UTF-8 bytes of strftime applied to the
whole string seed + format — so the seed is itself subject to percent
expansion; whenever the seed contains no percent character it is passed
through verbatim and the digest is that of seed concatenated with the
formatted current UTC time, as the spec states. -/
theorem C8_amended (now : PyDateTime) (seed : String)
    (h : '%' ∉ seed.data) :
    Job.generate_identifier now seed
        = sha256_hexdigest (utf8Encode (seed ++ strftime now genIdFormat))
      ∧ (Job.generate_identifier now seed).length = 64
      ∧ ∀ c ∈ (Job.generate_identifier now seed).data,
          c ∈ "0123456789abcdef".data := by
  refine ⟨?_, sha256_hexdigest_length _, sha256_hexdigest_mem _⟩
  have hdata : (seed ++ genIdFormat).data = seed.data ++ genIdFormat.data := by
    cases seed
    rfl
  have hmk : strftime now (seed ++ genIdFormat)
      = seed ++ strftime now genIdFormat := by
    apply String.ext
    show strftimeChars now (seed ++ genIdFormat).data
      = (seed ++ strftime now genIdFormat).data
    rw [hdata, strftimeChars_append now _ _ h]
    cases seed
    rfl
  simp only [Job.generate_identifier, hmk]

/-- The regex oracle of the C4 counterexample: a two-group pattern with
one match whose groups are "a" and "b". -/
def c4Rx : String → List RawMatch := fun _ => [⟨"ab", ["a", "b"]⟩]

/-- C4: the claim fails on the code.  With two capture groups, re.findall
returns tuples and filter_by_regex extends the url list with them as
single elements (payload_collector.py, line 48), so a match with groups
"a" and "b" yields one tuple element and neither group's text appears as
its own string element. -/
theorem C4_counterexample :
    filter_by_regex 2 c4Rx (some "ab") = [.tup ["a", "b"]]
    ∧ PyVal.s "a" ∉ filter_by_regex 2 c4Rx (some "ab")
    ∧ PyVal.s "b" ∉ filter_by_regex 2 c4Rx (some "ab") := by
  exact ⟨rfl, by decide, by decide⟩

/-- Elements produced by the shared per-text match-and-filter fold are
truthy. -/
theorem foldl_filter_truthy (g : Nat) (rx : String → List RawMatch)
    (l : List (Option String)) (acc : List PyVal)
    (hacc : ∀ v ∈ acc, v.truthy = true) :
    ∀ v ∈ l.foldl (fun urls x =>
        match x with
        | none => urls
        | some t => urls ++ (findall g (rx t)).filter PyVal.truthy) acc,
      v.truthy = true := by
  induction l generalizing acc with
  | nil => exact hacc
  | cons x xs ih =>
    cases x with
    | none => exact ih acc hacc
    | some t =>
      refine ih _ ?_
      intro v hv
      rcases List.mem_append.mp hv with h | h
      · exact hacc v h
      · exact List.of_mem_filter h

/-- C4 amended: the three filter factories map null metadata to the empty
list and discard falsy matches (in particular empty-string matches), but
with two or more capture groups each raw match contributes a single tuple
element holding all group texts — the groups do not appear as separate
string elements, and such tuples are always truthy, so they are kept even
when every component is the empty string. -/
theorem C4_amended :
    (∀ g rx, filter_by_regex g rx none = [])
    ∧ (∀ g rx fields, filter_by_regex_in_xml_path g rx fields none = [])
    ∧ (∀ g rx ft, filter_by_regex_with_xpath_query g rx ft none = [])
    ∧ (∀ g rx sm, ∀ v ∈ filter_by_regex g rx (some sm), v.truthy = true)
    ∧ (∀ g rx fields sm, ∀ v ∈ filter_by_regex_in_xml_path g rx fields (some sm),
        v.truthy = true)
    ∧ (∀ g rx ft sm, ∀ v ∈ filter_by_regex_with_xpath_query g rx ft (some sm),
        v.truthy = true)
    ∧ (∀ (g : Nat) rx sm, 2 ≤ g → (∀ m ∈ rx sm, (RawMatch.groups m).length = g) →
        filter_by_regex g rx (some sm)
          = (rx sm).map (fun m => PyVal.tup m.groups)) := by
  refine ⟨fun g rx => rfl, fun g rx fields => rfl, fun g rx ft => rfl,
    ?_, ?_, ?_, ?_⟩
  · intro g rx sm v hv
    exact List.of_mem_filter hv
  · intro g rx fields sm v hv
    simp only [filter_by_regex_in_xml_path] at hv
    cases hx : fields sm with
    | none => rw [hx] at hv; simp at hv
    | some xs =>
      rw [hx] at hv
      exact foldl_filter_truthy g rx xs [] (by simp) v hv
  · intro g rx ft sm v hv
    exact foldl_filter_truthy g rx (ft sm) [] (by simp) v hv
  · intro g rx sm hg hlen
    have hga : ¬ g = 0 := by omega
    have hgb : ¬ g = 1 := by omega
    simp only [filter_by_regex, findall, hga, hgb, if_false]
    refine List.filter_eq_self.mpr ?_
    intro v hv
    rcases List.mem_map.mp hv with ⟨m, hm, hvm⟩
    subst hvm
    have := hlen m hm
    simp only [PyVal.truthy, Bool.not_eq_true']
    cases hmg : m.groups with
    | nil => rw [hmg] at this; simp at this; omega
    | cons a l => simp

/-- C4 witness: the amended statement evaluated at a concrete two-group
regex oracle — the single match becomes a single tuple element. -/
theorem C4_amended_witness :
    filter_by_regex 2 c4Rx (some "ab")
      = (c4Rx "ab").map (fun m => PyVal.tup m.groups) := by
  refine C4_amended.2.2.2.2.2.2 2 c4Rx "ab" (by norm_num) ?_
  intro m hm
  simp only [c4Rx, List.mem_singleton] at hm
  subst hm
  rfl

/-- C8 witness: the amended statement evaluated at a percent-free seed and
a concrete time. -/
theorem C8_amended_witness :
    Job.generate_identifier ⟨2024, 1, 2, 3, 4, 5, 6⟩ "seed"
        = sha256_hexdigest (utf8Encode
            ("seed" ++ strftime ⟨2024, 1, 2, 3, 4, 5, 6⟩ genIdFormat))
      ∧ (Job.generate_identifier ⟨2024, 1, 2, 3, 4, 5, 6⟩ "seed").length = 64
      ∧ ∀ c ∈ (Job.generate_identifier ⟨2024, 1, 2, 3, 4, 5, 6⟩ "seed").data,
          c ∈ "0123456789abcdef".data :=
  C8_amended ⟨2024, 1, 2, 3, 4, 5, 6⟩ "seed" (by decide)

/-- A page response that always makes the exhaustive loop continue when a
resumption token is already in hand: a payload with a next token, or an
OAI-PMH error (which hands the current token back). -/
def contPage (r : LIResponse) : Prop :=
  (∃ ids t, r = .ok ids (some t)) ∨ (∃ c x, r = .err c x)

/-- A page response with a payload and a next token. -/
def contOkPage (r : LIResponse) : Prop :=
  ∃ ids t, r = .ok ids (some t)

/-- The identifiers contributed by a page response. -/
def pageIds : LIResponse → List String
  | .ok ids _ => ids
  | _ => []

/-- The loop of list_identifiers_exhaustive settles within the token
budget: with a positive bound (n as a natural number) and enough pages, it
yields a result after at most (n + 1 - tokens_count) further calls. -/
theorem lieGo_total (p : String) (m : Int) (n : Nat) (hmn : (n : Int) = m)
    (hn : 0 < n) :
    ∀ (resps : List LIResponse) (ri : RepositoryInterface)
      (acc : List String) (tc : Nat) (tok : Option String),
      tc ≤ n → n + 1 - tc ≤ resps.length →
      ∃ out, lieGo (some p) (some m) ri acc tc tok resps = some out
        ∧ out.2.2 ≤ n + 1 - tc := by
  intro resps
  induction resps with
  | nil =>
    intro ri acc tc tok htc hlen
    simp only [List.length_nil, Nat.le_zero] at hlen
    omega
  | cons resp rest ih =>
    intro ri acc tc tok htc hlen
    simp only [List.length_cons] at hlen
    cases resp with
    | exc msg =>
      simp [lieGo, RepositoryInterface.list_identifiers]
      omega
    | err c x =>
      cases tok with
      | none =>
        simp [lieGo, RepositoryInterface.list_identifiers]
        omega
      | some t =>
        by_cases hhit : tokenLimitHit (some m) (tc + 1) = true
        · simp [lieGo, RepositoryInterface.list_identifiers, hhit]
          omega
        · have htc1 : tc + 1 ≤ n := by
            simp only [tokenLimitHit, Bool.and_eq_true, decide_eq_true_eq,
              not_and] at hhit
            by_contra hcon
            exact hhit (by omega) (by omega)
          obtain ⟨out, hout, hle⟩ := ih { ri with log := logOaiError ri.log c x }
            acc (tc + 1) (some t) htc1 (by omega)
          simp [lieGo, RepositoryInterface.list_identifiers, hhit, hout]
          omega
    | ok ids token =>
      cases token with
      | none =>
        simp [lieGo, RepositoryInterface.list_identifiers]
        omega
      | some t =>
        by_cases hhit : tokenLimitHit (some m) (tc + 1) = true
        · simp [lieGo, RepositoryInterface.list_identifiers, hhit]
          omega
        · have htc1 : tc + 1 ≤ n := by
            simp only [tokenLimitHit, Bool.and_eq_true, decide_eq_true_eq,
              not_and] at hhit
            by_contra hcon
            exact hhit (by omega) (by omega)
          obtain ⟨out, hout, hle⟩ := ih
            (if ri.preserve_log = false ∧ tok = none then { ri with log := [] }
              else ri)
            (acc ++ ids) (tc + 1) (some t) htc1 (by omega)
          simp [lieGo, RepositoryInterface.list_identifiers, hhit, hout]
          omega

/-- The second component of a list_identifiers result is never the
OverflowError (that error belongs to the exhaustive wrapper alone). -/
theorem list_identifiers_snd_ne_overflow (ri : RepositoryInterface)
    (mp tok : Option String) (resp : LIResponse) :
    (ri.list_identifiers mp tok resp).2 ≠ .error .overflow := by
  cases resp <;> simp only [RepositoryInterface.list_identifiers] <;>
    split <;> simp

/-- The token-limit test never fires when the bound is absent or
non-positive. -/
theorem tokenLimitHit_false (mt : Option Int)
    (hmt : ∀ m, mt = some m → m ≤ 0) (k : Nat) :
    tokenLimitHit mt k = false := by
  cases mt with
  | none => rfl
  | some m =>
    have hm := hmt m rfl
    simp only [tokenLimitHit, Bool.and_eq_false_iff]
    right
    simpa using not_lt.mpr hm

/-- With an absent or non-positive bound the exhaustive loop never yields
the OverflowError. -/
theorem lieGo_no_overflow (mp : Option String) (mt : Option Int)
    (hmt : ∀ m, mt = some m → m ≤ 0) :
    ∀ (resps : List LIResponse) (ri : RepositoryInterface)
      (acc : List String) (tc : Nat) (tok : Option String) out,
      lieGo mp mt ri acc tc tok resps = some out →
      out.2.1 ≠ .error .overflow := by
  intro resps
  induction resps with
  | nil =>
    intro ri acc tc tok out h
    simp [lieGo] at h
  | cons resp rest ih =>
    intro ri acc tc tok out h
    rw [lieGo] at h
    rcases hres : ri.list_identifiers mp tok resp with ⟨ri2, res⟩
    rw [hres] at h
    cases res with
    | error e =>
      simp only [Option.some.injEq] at h
      subst h
      have hne := list_identifiers_snd_ne_overflow ri mp tok resp
      rw [hres] at hne
      simpa using hne
    | ok pr =>
      obtain ⟨ids, token⟩ := pr
      cases token with
      | none =>
        simp only [Option.some.injEq] at h
        subst h
        simp
      | some t =>
        simp only [tokenLimitHit_false mt hmt, Bool.false_eq_true, if_false,
          Option.map_eq_some'] at h
        obtain ⟨out', hout', hf⟩ := h
        subst hf
        simpa using ih ri2 (acc ++ ids) (tc + 1) (some t) out' hout'

/-- With a positive bound (n as a natural number) and a token already in
hand, a run of continuing pages exhausts the budget: after
(n + 1 - tokens_count) further calls the loop raises the OverflowError. -/
theorem lieGo_overflow (p : String) (m : Int) (n : Nat) (hmn : (n : Int) = m)
    (hn : 0 < n) :
    ∀ (resps : List LIResponse) (ri : RepositoryInterface)
      (acc : List String) (tc : Nat) (t : String),
      tc ≤ n → n + 1 - tc ≤ resps.length →
      (∀ r ∈ resps.take (n + 1 - tc), contPage r) →
      ∃ ri', lieGo (some p) (some m) ri acc tc (some t) resps
        = some (ri', .error .overflow, n + 1 - tc) := by
  intro resps
  induction resps with
  | nil =>
    intro ri acc tc t htc hlen hcont
    simp only [List.length_nil, Nat.le_zero] at hlen
    omega
  | cons resp rest ih =>
    intro ri acc tc t htc hlen hcont
    simp only [List.length_cons] at hlen
    have hr : contPage resp := by
      refine hcont resp ?_
      have hpos : 0 < n + 1 - tc := by omega
      rcases Nat.exists_eq_add_of_lt hpos with ⟨k, hk⟩
      rw [hk]
      simp [List.take_succ_cons]
    by_cases htop : tc = n
    · have hone : n + 1 - tc = 1 := by omega
      have hhit : tokenLimitHit (some m) (tc + 1) = true := by
        simp only [tokenLimitHit, Bool.and_eq_true, decide_eq_true_eq]
        constructor <;> omega
      rw [hone]
      rcases hr with ⟨ids, t', hok⟩ | ⟨c, x, herr⟩
      · subst hok
        simp [lieGo, RepositoryInterface.list_identifiers, hhit]
      · subst herr
        simp [lieGo, RepositoryInterface.list_identifiers, hhit]
    · have htc' : tc < n := by omega
      have hhit : tokenLimitHit (some m) (tc + 1) = false := by
        simp only [tokenLimitHit, Bool.and_eq_false_iff]
        left
        simp only [decide_eq_false_iff_not, not_lt]
        omega
      have hcount : n + 1 - tc = (n + 1 - (tc + 1)) + 1 := by omega
      have hcont' : ∀ r ∈ rest.take (n + 1 - (tc + 1)), contPage r := by
        intro r hmem
        refine hcont r ?_
        rw [hcount]
        simp only [List.take_succ_cons, List.mem_cons]
        exact Or.inr hmem
      rcases hr with ⟨ids, t', hok⟩ | ⟨c, x, herr⟩
      · subst hok
        obtain ⟨ri', hri⟩ := ih ri (acc ++ ids) (tc + 1) t' (by omega) (by omega)
          hcont'
        refine ⟨ri', ?_⟩
        rw [hcount]
        simp [lieGo, RepositoryInterface.list_identifiers, hhit, hri]
      · subst herr
        obtain ⟨ri', hri⟩ := ih { ri with log := logOaiError ri.log c x }
          acc (tc + 1) t (by omega) (by omega) hcont'
        refine ⟨ri', ?_⟩
        rw [hcount]
        simp [lieGo, RepositoryInterface.list_identifiers, hhit, hri]

/-- A run of token-carrying pages followed by a final page without token
returns the concatenation of all page payloads, in page order, using one
call per page. -/
theorem lieGo_ok_concat (p : String) (mt : Option Int) :
    ∀ (front : List LIResponse) (ids' : List String) (rest : List LIResponse)
      (ri : RepositoryInterface) (acc : List String) (tc : Nat)
      (tok : Option String),
      (∀ r ∈ front, contOkPage r) →
      (∀ k, k < front.length → tokenLimitHit mt (tc + k + 1) = false) →
      ∃ ri', lieGo (some p) mt ri acc tc tok (front ++ .ok ids' none :: rest)
        = some (ri', .ok (acc ++ (front.map pageIds).flatten ++ ids'),
            front.length + 1) := by
  intro front
  induction front with
  | nil =>
    intro ids' rest ri acc tc tok _ _
    simp [lieGo, RepositoryInterface.list_identifiers]
  | cons r front' ih =>
    intro ids' rest ri acc tc tok hfront hhit
    obtain ⟨ids1, t1, hr⟩ := hfront r (List.mem_cons_self r front')
    subst hr
    have hhit0 : tokenLimitHit mt (tc + 1) = false := by
      have := hhit 0 (by simp)
      simpa using this
    obtain ⟨ri', hri⟩ := ih ids' rest
      (if ri.preserve_log = false ∧ tok = none then { ri with log := [] }
        else ri)
      (acc ++ ids1) (tc + 1) (some t1)
      (fun q hq => hfront q (List.mem_cons_of_mem _ hq))
      (fun k hk => by
        have := hhit (k + 1) (by simpa using Nat.succ_lt_succ hk)
        simpa [Nat.add_assoc, Nat.add_comm, Nat.add_left_comm] using this)
    refine ⟨ri', ?_⟩
    simp only [List.cons_append]
    simp [lieGo, RepositoryInterface.list_identifiers, hhit0, hri, pageIds]

/-- C6: list_identifiers_exhaustive raises the OverflowError exactly when
the number of processed non-null resumption tokens exceeds a positive
_max_resumption_tokens bound: with a null or non-positive bound the error
is never raised; with a positive bound n it is raised (after exactly n+1
page requests) precisely by a run that still carries a token after n+1
pages; and a run whose pages carry tokens until a token-free page within
the bound returns the concatenation of all page payloads. -/
theorem C6_token_limit :
    (∀ (p : String) (mt : Option Int), (∀ m, mt = some m → m ≤ 0) →
      ∀ (resps : List LIResponse) (ri : RepositoryInterface) out,
        ri.list_identifiers_exhaustive p mt resps = some out →
        out.2.1 ≠ .error .overflow)
    ∧ (∀ (p : String) (m : Int) (n : Nat), (n : Int) = m → 0 < n →
        ∀ (ids0 : List String) (t0 : String) (rest : List LIResponse)
          (ri : RepositoryInterface),
          n ≤ rest.length →
          (∀ r ∈ rest.take n, contPage r) →
          ∃ ri', ri.list_identifiers_exhaustive p (some m)
              (.ok ids0 (some t0) :: rest)
            = some (ri', .error .overflow, n + 1))
    ∧ (∀ (p : String) (m : Int) (n : Nat), (n : Int) = m → 0 < n →
        ∀ (front : List LIResponse) (ids' : List String)
          (rest : List LIResponse) (ri : RepositoryInterface),
          (∀ r ∈ front, contOkPage r) → front.length ≤ n →
          ∃ ri', ri.list_identifiers_exhaustive p (some m)
              (front ++ .ok ids' none :: rest)
            = some (ri', .ok ((front.map pageIds).flatten ++ ids'),
                front.length + 1)) := by
  refine ⟨?_, ?_, ?_⟩
  · intro p mt hmt resps ri out h
    exact lieGo_no_overflow (some p) mt hmt resps ri [] 0 none out h
  · intro p m n hmn hn ids0 t0 rest ri hlen hcont
    have hsub : n + 1 - 1 = n := by omega
    obtain ⟨ri', hri⟩ := lieGo_overflow p m n hmn hn rest
      (if ri.preserve_log = false then { ri with log := [] } else ri)
      ids0 1 t0 (by omega) (by omega) (by rw [hsub]; exact hcont)
    refine ⟨ri', ?_⟩
    have hhit : tokenLimitHit (some m) 1 = false := by
      simp only [tokenLimitHit, Bool.and_eq_false_iff]
      left
      simp only [decide_eq_false_iff_not, not_lt]
      omega
    rw [hsub] at hri
    simp only [RepositoryInterface.list_identifiers_exhaustive]
    simp [lieGo, RepositoryInterface.list_identifiers, hhit, hri]
  · intro p m n hmn hn front ids' rest ri hfront hlen
    obtain ⟨ri', hri⟩ := lieGo_ok_concat p (some m) front ids' rest ri [] 0 none
      hfront
      (fun k hk => by
        simp only [tokenLimitHit, Bool.and_eq_false_iff]
        left
        simp only [decide_eq_false_iff_not, not_lt]
        have hkn : k + 1 ≤ n := by omega
        omega)
    refine ⟨ri', ?_⟩
    simpa [RepositoryInterface.list_identifiers_exhaustive] using hri

/-- C6 witness: with bound 1, a first page carrying a token and one
further token-carrying page, the exhaustive listing raises the
OverflowError after exactly two page requests. -/
theorem C6_token_limit_witness :
    ∃ ri', RepositoryInterface.list_identifiers_exhaustive ⟨false, []⟩ "oai_dc"
        (some 1) [.ok ["a"] (some "t1"), .ok ["b"] (some "t2")]
      = some (ri', .error .overflow, 1 + 1) := by
  refine C6_token_limit.2.1 "oai_dc" 1 1 (by norm_num) (by norm_num) ["a"] "t1"
    [.ok ["b"] (some "t2")] ⟨false, []⟩ (by decide) ?_
  intro r hr
  simp only [List.take_succ_cons, List.take_zero, List.mem_singleton] at hr
  subst hr
  exact Or.inl ⟨["b"], "t2", rfl⟩

/-- C10: with a positive bound n, the exhaustive listing settles — it
returns or raises after at most n+1 list_identifiers calls — for every
sequence of page responses, including runs of OAI-PMH-error pages that
hand the same token back forever. -/
theorem C10_termination (p : String) (m : Int) (n : Nat) (hmn : (n : Int) = m)
    (hn : 0 < n) (resps : List LIResponse) (ri : RepositoryInterface)
    (hlen : n + 1 ≤ resps.length) :
    ∃ out, ri.list_identifiers_exhaustive p (some m) resps = some out
      ∧ out.2.2 ≤ n + 1 := by
  have h := lieGo_total p m n hmn hn resps ri [] 0 none (by omega) (by omega)
  simpa [RepositoryInterface.list_identifiers_exhaustive] using h

/-- C10 witness: with bound 1 and two pages — the second an OAI-PMH error
page handing the token back — the run settles using at most two calls. -/
theorem C10_termination_witness :
    ∃ out, RepositoryInterface.list_identifiers_exhaustive ⟨false, []⟩ "oai_dc"
        (some 1) [.ok [] (some "t"), .err "badResumptionToken" "x"]
      = some out ∧ out.2.2 ≤ 1 + 1 :=
  C10_termination "oai_dc" 1 1 (by norm_num) (by norm_num)
    [.ok [] (some "t"), .err "badResumptionToken" "x"] ⟨false, []⟩ (by decide)

/-- C9: when download_record_payload is called with skip_download=false
and no path, the TypeError is raised only after the url-extraction block
has run: provided the renewal condition held (renew_urls true or files
empty) and no filter raised a propagating SyntaxError, the returned state
already carries the freshly extracted, de-duplicated url set as files —
the record is not rolled back on this error. -/
theorem C9_path_error (filters : List (Option String → FilterOut))
    (dl : String → DLOut) (record : OAIPMHRecord) (renew : Bool) (log : Log)
    (hrenew : renew = true ∨ record.files = [])
    (hnoprop : (pcExtractGo record.metadata_raw 0 [] log filters).2.2 = none) :
    (download_record_payload filters dl record none renew false log).result
        = .error (.typeError missingPathMsg)
      ∧ (download_record_payload filters dl record none renew false log).record.files
        = ((pcExtractGo record.metadata_raw 0 [] log filters).1.eraseDups).map
            fileTemplate := by
  have hcond : (renew || record.files.isEmpty) = true := by
    rcases hrenew with h | h
    · simp [h]
    · simp [h]
  rcases hex : pcExtractGo record.metadata_raw 0 [] log filters with ⟨urls, log2, o⟩
  rw [hex] at hnoprop
  simp only at hnoprop
  subst hnoprop
  constructor <;>
    simp [download_record_payload, hcond, hex, pcAfterRenew,
      OAIPMHRecord.register_files_by_url]

/-- C9 witness: a concrete filter yielding a duplicated url; at the
TypeError the record carries the de-duplicated urls as files. -/
theorem C9_path_error_witness :
    (download_record_payload [fun _ => .ok ["u1", "u2", "u1"]]
        (fun _ => .ok "p") { identifier := "r" } none true false []).result
        = .error (.typeError missingPathMsg)
      ∧ (download_record_payload [fun _ => .ok ["u1", "u2", "u1"]]
          (fun _ => .ok "p") { identifier := "r" } none true false []).record.files
        = ((pcExtractGo (OAIPMHRecord.metadata_raw { identifier := "r" }) 0 []
            [] [fun _ => .ok ["u1", "u2", "u1"]]).1.eraseDups).map fileTemplate :=
  C9_path_error [fun _ => .ok ["u1", "u2", "u1"]] (fun _ => .ok "p")
    { identifier := "r" } true [] (Or.inl rfl) rfl

/-- C7: the claim fails on the code.  list_records clears the log at entry
whenever preserve_log is false (repository_interface.py, lines 494-496),
with no exemption for continuations: called with a non-null
_resumption_token and a stale entry in the log, the entry is gone. -/
theorem C7_counterexample :
    (RepositoryInterface.list_records ⟨false, [⟨.info, "stale"⟩]⟩ "oai_dc"
        (some "t") (.ok [] none) (fun _ => .err "c" "x")).1.log = []
    ∧ ([(⟨.info, "stale"⟩ : LogEntry)] : Log) ≠ [] := by
  exact ⟨rfl, by decide⟩

/-- The OAI-error diagnostic a page response adds to the client log. -/
def pageOaiEntries : LIResponse → Log
  | .err c x => [⟨.error, c ++ ": " ++ x⟩]
  | _ => []

/-- Every page of a continuation run of the exhaustive loop appends to the
log and never clears it: the final log is the starting log followed by the
OAI-error diagnostics of exactly the consumed pages. -/
theorem lieGo_log_accum (mp : Option String) (mt : Option Int) :
    ∀ (resps : List LIResponse) (ri : RepositoryInterface)
      (acc : List String) (tc : Nat) (t : String) out,
      lieGo mp mt ri acc tc (some t) resps = some out →
      out.1.log = ri.log
        ++ ((resps.take out.2.2).map pageOaiEntries).flatten := by
  intro resps
  induction resps with
  | nil =>
    intro ri acc tc t out h
    simp [lieGo] at h
  | cons resp rest ih =>
    intro ri acc tc t out h
    cases resp with
    | exc msg =>
      simp [lieGo, RepositoryInterface.list_identifiers] at h
      subst h
      simp [pageOaiEntries]
    | err c x =>
      by_cases hhit : tokenLimitHit mt (tc + 1) = true
      · simp [lieGo, RepositoryInterface.list_identifiers, hhit] at h
        subst h
        simp [pageOaiEntries, logOaiError]
      · simp [lieGo, RepositoryInterface.list_identifiers, hhit,
          Option.map_eq_some'] at h
        obtain ⟨o1, o2, b, hrec, heq⟩ := h
        subst heq
        have := ih { ri with log := logOaiError ri.log c x } acc (tc + 1) t
          (o1, o2, b) hrec
        simp only [List.take_succ_cons, List.map_cons, List.flatten_cons]
        simp only at this
        simp [this, pageOaiEntries, logOaiError]
    | ok ids token =>
      cases token with
      | none =>
        simp [lieGo, RepositoryInterface.list_identifiers] at h
        subst h
        simp [pageOaiEntries]
      | some t2 =>
        by_cases hhit : tokenLimitHit mt (tc + 1) = true
        · simp [lieGo, RepositoryInterface.list_identifiers, hhit] at h
          subst h
          simp [pageOaiEntries]
        · simp [lieGo, RepositoryInterface.list_identifiers, hhit,
            Option.map_eq_some'] at h
          obtain ⟨o1, o2, b, hrec, heq⟩ := h
          subst heq
          have := ih ri (acc ++ ids) (tc + 1) t2 (o1, o2, b) hrec
          simp only [List.take_succ_cons, List.map_cons, List.flatten_cons]
          simp only at this
          simp [this, pageOaiEntries]

/-- C7 amended: the claimed log discipline holds only for list_identifiers
and list_sets (cleared at entry unless preserve_log or a non-null
resumption token); list_metadata_formats, get_record and list_records
clear the log whenever preserve_log is false — list_records even on a
continuation, and each get_record it issues clears again — while identify
never touches the log at all.  Exhaustive listing does accumulate: all
calls after the first carry the token, so the final log extends the log of
the continuation run by the diagnostics of every consumed page. -/
theorem C7_log_discipline :
    (∀ (ri : RepositoryInterface) (mp : Option String) (t : String)
        (resp : LIResponse),
      ∃ tail, (ri.list_identifiers mp (some t) resp).1.log = ri.log ++ tail)
    ∧ (∀ (ri : RepositoryInterface) (mp tok : Option String)
        (resp : LIResponse), ri.preserve_log = true →
      ∃ tail, (ri.list_identifiers mp tok resp).1.log = ri.log ++ tail)
    ∧ (∀ (ri : RepositoryInterface) (t : String) (resp : LIResponse),
      ∃ tail, (ri.list_sets (some t) resp).1.log = ri.log ++ tail)
    ∧ (∀ (ri : RepositoryInterface) (mp : Option String) (resp : LIResponse),
        ri.preserve_log = false →
      (ri.list_identifiers mp none resp).1.log
        = (RepositoryInterface.list_identifiers ⟨false, []⟩ mp none resp).1.log)
    ∧ (∀ (ri : RepositoryInterface) (resp : PlainResponse),
        ri.preserve_log = false →
      (ri.list_metadata_formats resp).1.log
        = (RepositoryInterface.list_metadata_formats ⟨false, []⟩ resp).1.log)
    ∧ (∀ (ri : RepositoryInterface) (mp id : String) (resp : GRResponse),
        ri.preserve_log = false →
      (ri.get_record mp id resp).1.log
        = (RepositoryInterface.get_record ⟨false, []⟩ mp id resp).1.log)
    ∧ (∀ (ri : RepositoryInterface) (mp : String) (tok : Option String)
        (liResp : LIResponse) (gr : String → GRResponse),
        ri.preserve_log = false →
      (ri.list_records mp tok liResp gr).1.log
        = (RepositoryInterface.list_records ⟨false, []⟩ mp tok liResp gr).1.log)
    ∧ (∀ (ri : RepositoryInterface) (resp : PlainResponse),
      (ri.identify resp).1.log = ri.log)
    ∧ (∀ (mp : Option String) (mt : Option Int) (resps : List LIResponse)
        (ri : RepositoryInterface) (acc : List String) (tc : Nat) (t : String)
        out,
      lieGo mp mt ri acc tc (some t) resps = some out →
      out.1.log = ri.log
        ++ ((resps.take out.2.2).map pageOaiEntries).flatten) := by
  refine ⟨?_, ?_, ?_, ?_, ?_, ?_, ?_, ?_, lieGo_log_accum⟩
  · intro ri mp t resp
    cases resp <;> simp [RepositoryInterface.list_identifiers, logOaiError]
  · intro ri mp tok resp h
    cases resp <;>
      simp [RepositoryInterface.list_identifiers, logOaiError, h] <;>
      (split <;> first | exact ⟨_, rfl⟩ | exact ⟨[], by simp⟩)
  · intro ri t resp
    cases resp <;> simp [RepositoryInterface.list_sets, logOaiError]
  · intro ri mp resp h
    cases resp <;> simp [RepositoryInterface.list_identifiers, h]
  · intro ri resp h
    cases resp <;> simp [RepositoryInterface.list_metadata_formats, h]
  · intro ri mp id resp h
    cases resp <;> simp [RepositoryInterface.get_record, h]
  · intro ri mp tok liResp gr h
    cases liResp <;> simp [RepositoryInterface.list_records,
      RepositoryInterface.list_identifiers, h]
  · intro ri resp
    cases resp <;> simp [RepositoryInterface.identify]

/-- C7 witness: the log-discipline conjuncts that carry hypotheses,
evaluated at concrete states — a preserve_log client keeps its log on a
fresh list_identifiers call, and a non-preserving client entering
list_records on a continuation behaves as if its log were empty. -/
theorem C7_log_discipline_witness :
    (∃ tail, ((⟨true, [⟨.info, "stale"⟩]⟩ :
        RepositoryInterface).list_identifiers (some "oai_dc") none
          (.ok ["a"] none)).1.log = [(⟨.info, "stale"⟩ : LogEntry)] ++ tail)
    ∧ ((⟨false, [⟨.info, "stale"⟩]⟩ :
        RepositoryInterface).list_records "oai_dc" (some "t") (.ok [] none)
          (fun _ => .err "c" "x")).1.log
      = (RepositoryInterface.list_records ⟨false, []⟩ "oai_dc" (some "t")
          (.ok [] none) (fun _ => .err "c" "x")).1.log :=
  ⟨C7_log_discipline.2.1 ⟨true, [⟨.info, "stale"⟩]⟩ (some "oai_dc") none
      (.ok ["a"] none) rfl,
    C7_log_discipline.2.2.2.2.2.2.1 ⟨false, [⟨.info, "stale"⟩]⟩ "oai_dc"
      (some "t") (.ok [] none) (fun _ => .err "c" "x") rfl⟩

/-- A page that lets the harvest id-phase proceed: a non-empty identifier
list together with a next resumption token. -/
def goodPage (r : LIResponse) : Prop :=
  ∃ ids t, r = .ok ids (some t) ∧ ids ≠ []

/-- The abort condition of the harvest id-phase for one page, given
whether a resumption token was passed into the call: a transport
exception always aborts; an OAI-PMH error aborts exactly on continuation
calls (it returns the passed token with an empty list); a payload page
aborts when it carries a token together with an empty list. -/
def abortsPage (hasTok : Bool) : LIResponse → Prop
  | .exc _ => True
  | .err _ _ => hasTok = true
  | .ok ids tok => tok.isSome = true ∧ ids = []

/-- After any number of good pages, the first aborting page makes the
id-phase end the job with abort=true and return, having issued exactly
(number of good pages + 1) page requests. -/
theorem harvestIdPhase_abort (now mp : String) (abortQ : Nat → Bool) :
    ∀ (front : List LIResponse) (bad : LIResponse) (rest : List LIResponse)
      (ri : RepositoryInterface) (job : Job) (tok : Option String) (chk : Nat),
      (∀ r ∈ front, goodPage r) →
      (∀ i, i < front.length → abortQ (chk + i) = false) →
      abortsPage (if front.isEmpty then tok.isSome else true) bad →
      ∃ (ri' : RepositoryInterface) (job0 : Job),
        harvestIdPhase now mp abortQ ri job tok chk (front ++ bad :: rest)
        = some (.ok (.aborted ri' (job0.end' now true) (front.length + 1))) := by
  intro front
  induction front with
  | nil =>
    intro bad rest ri job tok chk _ _ hbad
    simp only [List.isEmpty_nil, if_true] at hbad
    cases bad with
    | exc msg =>
      refine ⟨if ri.preserve_log = false ∧ tok = none then { ri with log := [] }
        else ri, job, ?_⟩
      simp [harvestIdPhase, RepositoryInterface.list_identifiers]
    | err c x =>
      obtain ⟨t, ht⟩ := Option.isSome_iff_exists.mp hbad
      subst ht
      refine ⟨{ ri with log := logOaiError ri.log c x }, job, ?_⟩
      simp [harvestIdPhase, RepositoryInterface.list_identifiers]
    | ok ids tokr =>
      obtain ⟨hsome, hids⟩ := hbad
      obtain ⟨t, ht⟩ := Option.isSome_iff_exists.mp hsome
      subst ht
      subst hids
      refine ⟨if ri.preserve_log = false ∧ tok = none then { ri with log := [] }
        else ri, job, ?_⟩
      simp [harvestIdPhase, RepositoryInterface.list_identifiers]
  | cons p ps ih =>
    intro bad rest ri job tok chk hfront hq hbad
    obtain ⟨ids1, t1, hp, hne⟩ := hfront p (List.mem_cons_self p ps)
    subst hp
    have hq0 : abortQ chk = false := by
      have := hq 0 (by simp)
      simpa using this
    have hbad' : abortsPage (if ps.isEmpty then (some t1).isSome else true) bad := by
      have hup : (if ps.isEmpty then (some t1).isSome else true) = true := by
        cases hps : ps.isEmpty <;> simp
      rw [hup]
      simpa using hbad
    obtain ⟨ri', job0, hrec⟩ := ih bad rest
      (if ri.preserve_log = false ∧ tok = none then { ri with log := [] }
        else ri)
      (ids1.foldl (fun j id => (j.add_record { identifier := id }).1) job)
      (some t1) (chk + 1) (fun q hq2 => hfront q (List.mem_cons_of_mem _ hq2))
      (fun i hi => by
        have := hq (i + 1) (by simpa using Nat.succ_lt_succ hi)
        simpa [Nat.add_assoc, Nat.add_comm, Nat.add_left_comm] using this)
      hbad'
    refine ⟨ri', job0, ?_⟩
    have hempty : ids1.isEmpty = false := by
      cases ids1 with
      | nil => exact absurd rfl hne
      | cons a l => rfl
    simp only [List.cons_append]
    simp [harvestIdPhase, RepositoryInterface.list_identifiers, hempty, hq0,
      hrec, Except.map]

/-- C1: in a harvest job whose identifiers are enumerated by paged
ListIdentifiers calls (no _identifiers argument), a page that raises a
transport error or returns a non-null resumption token with an empty
identifier list makes the worker call Job.end(abort=true) — leaving
complete=false and running=false — and perform no further page requests
and no GetRecord fetches. -/
theorem C1_abort_on_bad_page (now mp : String) (filt : OAIPMHRecord → Bool)
    (abortQ : Nat → Bool) (postH : Job → Job) (grOracle : String → GRResponse)
    (ri : RepositoryInterface) (job : Job)
    (front : List LIResponse) (bad : LIResponse) (rest : List LIResponse)
    (hfront : ∀ r ∈ front, goodPage r)
    (hq : ∀ i, i < front.length → abortQ i = false)
    (hbad : abortsPage (!front.isEmpty) bad) :
    ∃ ri' job', job_task now mp none filt abortQ postH grOracle
        (front ++ bad :: rest) ri job
      = some (.ok ⟨ri', job', front.length + 1, 0⟩)
      ∧ job'.complete = false ∧ job'.running = false := by
  have hbad2 : abortsPage (if front.isEmpty then (none : Option String).isSome
      else true) bad := by
    have : (if front.isEmpty then (none : Option String).isSome else true)
        = !front.isEmpty := by
      cases front.isEmpty <;> simp
    rw [this]
    exact hbad
  obtain ⟨ri', job0, hrec⟩ := harvestIdPhase_abort now mp abortQ front bad rest
    ri (job.start now) none 0 hfront (fun i hi => by simpa using hq i hi) hbad2
  refine ⟨ri', job0.end' now true, ?_, ?_, ?_⟩
  · simp [job_task, hrec]
  · simp [Job.end']
  · simp [Job.end']

/-- C1 witness: one good page, then an OAI-PMH error on the continuation
(the badResumptionToken situation): the worker aborts after the second
page request with zero GetRecord fetches. -/
theorem C1_abort_on_bad_page_witness :
    ∃ ri' job', job_task "t" "oai_dc" none (fun _ => true) (fun _ => false)
        id (fun _ => .err "e" "x")
        [.ok ["a"] (some "t1"), .err "badResumptionToken" "m"]
        ⟨false, []⟩ (Job.init "j" "" "t0")
      = some (.ok ⟨ri', job', 1 + 1, 0⟩)
      ∧ job'.complete = false ∧ job'.running = false := by
  have h := C1_abort_on_bad_page "t" "oai_dc" (fun _ => true) (fun _ => false)
    id (fun _ => .err "e" "x") ⟨false, []⟩ (Job.init "j" "" "t0")
    [.ok ["a"] (some "t1")] (.err "badResumptionToken" "m") []
    (by
      intro r hr
      simp only [List.mem_singleton] at hr
      subst hr
      exact ⟨["a"], "t1", rfl, by decide⟩)
    (fun i _ => rfl)
    (by exact rfl)
  simpa using h

end OAIPMHX
